import Mathlib

set_option allowUnsafeReducibility true
attribute [local semireducible] Rat.mul Rat.add Rat.sub Rat.div Rat.inv Rat.neg

/-!
# Verification of the Rayquasa trading-backtest core

Shallow embedding of the repository's core modules:

* `backtest.py`   — `Portfolio` ledger (`buy`, `sell`, `get_value`,
  `record_state`) and the `Backtester` driver (`run`, `_calculate_results`);
* `trading_engine.py` — `TradingEngine` (`calculate_weekly_change`,
  `generate_signal`, `execute_trades`);
* `stock_selector.py` — `StockSelector` (`calculate_volatility`,
  `calculate_predictability_score`, `is_suitable`, `filter_stocks`).

Modelling conventions:

* Python floats are modelled as exact rationals `ℚ`; `NaN`/`None` price
  entries are modelled as `Option ℚ` with `none` as the uniform "no value"
  sentinel (the spec's own design note prescribes this reading).
* Python dicts are modelled as association lists (`List (Symb × ℚ)`); a
  genuine dict has no duplicate keys, captured by the `KeysNodup`
  well-formedness predicate where a proof needs it.
* Timestamps are modelled as naturals; `sorted(set(...))` is modelled by
  `List.dedup` followed by insertion sort.
* Volatility multiplies a standard deviation by `√252`, so it lives in `ℝ`;
  everything that the code computes without square roots stays in `ℚ`.
-/

abbrev Symb := String

/-- `1e-10`, the dust threshold used by `Portfolio.sell`,
`calculate_weekly_change` and `execute_trades`. -/
def eps10 : ℚ := 1 / 10 ^ 10

/-- `1e-9`, the floating-point tolerance named by the round-trip law. -/
def eps9 : ℚ := 1 / 10 ^ 9

/-! ## Association lists (Python dict model) -/

/-- `d.get(s)` / `d[s]`: value stored at key `s`, if any. -/
def hLookup (s : Symb) : List (Symb × ℚ) → Option ℚ
  | [] => none
  | (t, v) :: rest => if t = s then some v else hLookup s rest

/-- `d[s] = v`: replace the (first) binding of `s`, or append one. -/
def hSet (s : Symb) (v : ℚ) : List (Symb × ℚ) → List (Symb × ℚ)
  | [] => [(s, v)]
  | (t, w) :: rest => if t = s then (t, v) :: rest else (t, w) :: hSet s v rest

/-- `del d[s]`: drop the (first) binding of `s`. -/
def hErase (s : Symb) : List (Symb × ℚ) → List (Symb × ℚ)
  | [] => []
  | (t, w) :: rest => if t = s then rest else (t, w) :: hErase s rest

/-- A dict never stores a key twice. -/
def KeysNodup (h : List (Symb × ℚ)) : Prop := (h.map Prod.fst).Nodup

instance : DecidablePred KeysNodup := fun h =>
  inferInstanceAs (Decidable (h.map Prod.fst).Nodup)

theorem hLookup_hSet_self (s : Symb) (v : ℚ) (h : List (Symb × ℚ)) :
    hLookup s (hSet s v h) = some v := by
  induction h with
  | nil => simp [hSet, hLookup]
  | cons e rest ih =>
    obtain ⟨t, w⟩ := e
    by_cases hts : t = s
    · simp [hSet, hLookup, hts]
    · simp [hSet, hLookup, hts, ih]

theorem hLookup_hSet_ne (s t : Symb) (v : ℚ) (h : List (Symb × ℚ)) (hne : t ≠ s) :
    hLookup t (hSet s v h) = hLookup t h := by
  induction h with
  | nil => simp [hSet, hLookup, Ne.symm hne]
  | cons e rest ih =>
    obtain ⟨u, w⟩ := e
    by_cases hus : u = s
    · subst hus
      simp [hSet, hLookup, Ne.symm hne]
    · simp [hSet, hLookup, hus, ih]

theorem hLookup_hErase_ne (s t : Symb) (h : List (Symb × ℚ)) (hne : t ≠ s) :
    hLookup t (hErase s h) = hLookup t h := by
  induction h with
  | nil => simp [hErase]
  | cons e rest ih =>
    obtain ⟨u, w⟩ := e
    by_cases hus : u = s
    · subst hus
      simp [hErase, hLookup, Ne.symm hne]
    · simp [hErase, hLookup, hus, ih]

theorem hLookup_eq_none_of_not_mem (s : Symb) (h : List (Symb × ℚ))
    (hs : s ∉ h.map Prod.fst) : hLookup s h = none := by
  induction h with
  | nil => rfl
  | cons e rest ih =>
    obtain ⟨u, w⟩ := e
    simp only [List.map_cons, List.mem_cons] at hs
    push_neg at hs
    simp [hLookup, Ne.symm hs.1, ih hs.2]

theorem hLookup_mem {s : Symb} {b : ℚ} {h : List (Symb × ℚ)}
    (hl : hLookup s h = some b) : (s, b) ∈ h := by
  induction h with
  | nil => simp [hLookup] at hl
  | cons e rest ih =>
    obtain ⟨u, w⟩ := e
    by_cases hus : u = s
    · subst hus
      simp [hLookup] at hl
      exact List.mem_cons.mpr (Or.inl (by simp [hl]))
    · simp only [hLookup, if_neg hus] at hl
      exact List.mem_cons_of_mem _ (ih hl)

theorem mem_hSet {e : Symb × ℚ} {s : Symb} {v : ℚ} {h : List (Symb × ℚ)}
    (he : e ∈ hSet s v h) : e = (s, v) ∨ e ∈ h := by
  induction h with
  | nil => simpa [hSet] using he
  | cons f rest ih =>
    obtain ⟨u, w⟩ := f
    by_cases hus : u = s
    · subst hus
      simp only [hSet, if_pos rfl] at he
      rcases List.mem_cons.mp he with h1 | h2
      · exact Or.inl h1
      · exact Or.inr (List.mem_cons_of_mem _ h2)
    · simp only [hSet, if_neg hus] at he
      rcases List.mem_cons.mp he with h1 | h2
      · exact Or.inr (by simp [h1])
      · rcases ih h2 with h3 | h4
        · exact Or.inl h3
        · exact Or.inr (List.mem_cons_of_mem _ h4)

theorem mem_hErase_hSet {e : Symb × ℚ} {s : Symb} {v : ℚ} {h : List (Symb × ℚ)}
    (he : e ∈ hErase s (hSet s v h)) : e ∈ h := by
  induction h with
  | nil => simp [hSet, hErase] at he
  | cons f rest ih =>
    obtain ⟨u, w⟩ := f
    by_cases hus : u = s
    · subst hus
      simp only [hSet, if_pos rfl, hErase, if_pos rfl] at he
      exact List.mem_cons_of_mem _ he
    · simp only [hSet, if_neg hus, hErase, if_neg hus] at he
      rcases List.mem_cons.mp he with h1 | h2
      · simp [h1]
      · exact List.mem_cons_of_mem _ (ih h2)

theorem hLookup_hErase_hSet (s : Symb) (v : ℚ) (h : List (Symb × ℚ))
    (hnd : KeysNodup h) : hLookup s (hErase s (hSet s v h)) = none := by
  induction h with
  | nil => simp [hSet, hErase, hLookup]
  | cons f rest ih =>
    obtain ⟨u, w⟩ := f
    simp only [KeysNodup, List.map_cons, List.nodup_cons] at hnd
    by_cases hus : u = s
    · subst hus
      simp only [hSet, if_pos rfl, hErase, if_pos rfl]
      exact hLookup_eq_none_of_not_mem _ _ hnd.1
    · simp only [hSet, if_neg hus, hErase, if_neg hus, hLookup, if_neg hus]
      exact ih hnd.2

/-! ## Portfolio ledger (`backtest.py`, class `Portfolio`) -/

structure Portfolio where
  cash : ℚ
  holdings : List (Symb × ℚ)
deriving DecidableEq

/-- The ledger's dict of holdings has no duplicate keys. -/
def Portfolio.WF (P : Portfolio) : Prop := KeysNodup P.holdings

instance : DecidablePred Portfolio.WF := fun P =>
  inferInstanceAs (Decidable (KeysNodup P.holdings))

/-- `Portfolio.buy` (backtest.py lines 49–63).  Returns the updated ledger
together with the boolean the Python method returns. -/
def Portfolio.buy (P : Portfolio) (symbol : Symb) (shares price : ℚ) :
    Portfolio × Bool :=
  let cost := shares * price
  if cost ≤ P.cash then
    ({ cash := P.cash - cost,
       holdings := hSet symbol ((hLookup symbol P.holdings).getD 0 + shares)
         P.holdings }, true)
  else
    (P, false)

/-- `Portfolio.sell` (backtest.py lines 65–81). -/
def Portfolio.sell (P : Portfolio) (symbol : Symb) (shares price : ℚ) :
    Portfolio × Bool :=
  match hLookup symbol P.holdings with
  | some held =>
    if shares ≤ held then
      let proceeds := shares * price
      let newBal := held - shares
      let holdings1 := hSet symbol newBal P.holdings
      let holdings2 := if newBal < eps10 then hErase symbol holdings1 else holdings1
      ({ cash := P.cash + proceeds, holdings := holdings2 }, true)
    else
      (P, false)
  | none => (P, false)

/-- Market value of the holdings dict under a price dict
(missing symbols price as `0`). -/
def holdVal (h : List (Symb × ℚ)) (prices : List (Symb × ℚ)) : ℚ :=
  (h.map (fun e => e.2 * (hLookup e.1 prices).getD 0)).sum

/-- `Portfolio.get_value` (backtest.py lines 83–97). -/
def Portfolio.get_value (P : Portfolio) (current_prices : List (Symb × ℚ)) : ℚ :=
  P.cash + holdVal P.holdings current_prices

theorem holdVal_hSet (s : Symb) (v : ℚ) (h prices : List (Symb × ℚ)) :
    holdVal (hSet s v h) prices
      = holdVal h prices + (v - (hLookup s h).getD 0) * (hLookup s prices).getD 0 := by
  induction h with
  | nil => simp [hSet, holdVal, hLookup]
  | cons e rest ih =>
    obtain ⟨u, w⟩ := e
    by_cases hus : u = s
    · subst hus
      simp only [hSet, if_pos rfl, if_true, holdVal, List.map_cons, List.sum_cons, hLookup,
        Option.getD_some] at *
      ring
    · simp only [hSet, if_neg hus, holdVal, List.map_cons, List.sum_cons, hLookup,
        if_neg hus] at *
      rw [ih]
      ring

theorem holdVal_hErase (s : Symb) (h prices : List (Symb × ℚ)) :
    holdVal (hErase s h) prices
      = holdVal h prices - ((hLookup s h).getD 0) * (hLookup s prices).getD 0 := by
  induction h with
  | nil => simp [hErase, holdVal, hLookup]
  | cons e rest ih =>
    obtain ⟨u, w⟩ := e
    by_cases hus : u = s
    · subst hus
      simp only [hErase, if_pos rfl, if_true, holdVal, List.map_cons, List.sum_cons, hLookup,
        Option.getD_some]
      ring
    · simp only [hErase, if_neg hus, holdVal, List.map_cons, List.sum_cons, hLookup,
        if_neg hus] at *
      rw [ih]
      ring

/-- C1: `buy` succeeds exactly when `shares·price ≤ cash`, and on success
deducts the cost from cash and adds `shares` to the symbol's holdings
(creating the entry if absent); `sell` succeeds exactly when the symbol is
held with at least `shares`, and on success credits `shares·price` to cash,
decrements the holding, deleting the symbol's entry entirely when the
remaining balance is below `1e-10`; every failing call returns `false` and
leaves cash and holdings unchanged. -/
theorem buy_sell_contract (P : Portfolio) (s : Symb) (sh p : ℚ) (hW : P.WF) :
    ((P.buy s sh p).2 = true ↔ sh * p ≤ P.cash) ∧
    (sh * p ≤ P.cash →
      (P.buy s sh p).1.cash = P.cash - sh * p ∧
      hLookup s (P.buy s sh p).1.holdings
        = some ((hLookup s P.holdings).getD 0 + sh) ∧
      ∀ t, t ≠ s → hLookup t (P.buy s sh p).1.holdings = hLookup t P.holdings) ∧
    (¬ sh * p ≤ P.cash → (P.buy s sh p).1 = P ∧ (P.buy s sh p).2 = false) ∧
    ((P.sell s sh p).2 = true ↔ ∃ b, hLookup s P.holdings = some b ∧ sh ≤ b) ∧
    (∀ b, hLookup s P.holdings = some b → sh ≤ b →
      (P.sell s sh p).1.cash = P.cash + sh * p ∧
      (b - sh < eps10 → hLookup s (P.sell s sh p).1.holdings = none) ∧
      (¬ b - sh < eps10 → hLookup s (P.sell s sh p).1.holdings = some (b - sh)) ∧
      ∀ t, t ≠ s → hLookup t (P.sell s sh p).1.holdings = hLookup t P.holdings) ∧
    ((P.sell s sh p).2 = false → (P.sell s sh p).1 = P) := by
  refine ⟨?_, ?_, ?_, ?_, ?_, ?_⟩
  · by_cases hc : sh * p ≤ P.cash <;> simp [Portfolio.buy, hc]
  · intro hc
    refine ⟨by simp [Portfolio.buy, hc], by simp [Portfolio.buy, hc, hLookup_hSet_self], ?_⟩
    intro t ht
    simp [Portfolio.buy, hc, hLookup_hSet_ne _ _ _ _ ht]
  · intro hc
    exact ⟨by simp [Portfolio.buy, hc], by simp [Portfolio.buy, hc]⟩
  · constructor
    · intro hs
      rcases hh : hLookup s P.holdings with _ | b
      · simp [Portfolio.sell, hh] at hs
      · by_cases hsb : sh ≤ b
        · exact ⟨b, rfl, hsb⟩
        · simp [Portfolio.sell, hh, hsb] at hs
    · rintro ⟨b, hh, hsb⟩
      simp [Portfolio.sell, hh, hsb]
  · intro b hh hsb
    refine ⟨by simp [Portfolio.sell, hh, hsb], ?_, ?_, ?_⟩
    · intro hlt
      simp [Portfolio.sell, hh, hsb, hlt, hLookup_hErase_hSet _ _ _ hW]
    · intro hge
      simp [Portfolio.sell, hh, hsb, hge, hLookup_hSet_self]
    · intro t ht
      by_cases hlt : b - sh < eps10 <;>
        simp [Portfolio.sell, hh, hsb, hlt, hLookup_hSet_ne _ _ _ _ ht,
          hLookup_hErase_ne _ _ _ ht]
  · intro hs
    rcases hh : hLookup s P.holdings with _ | b
    · simp [Portfolio.sell, hh]
    · by_cases hsb : sh ≤ b
      · simp [Portfolio.sell, hh, hsb] at hs
      · simp [Portfolio.sell, hh, hsb]

/-- Closed instance of `buy_sell_contract` at a concrete ledger. -/
theorem buy_sell_contract_w :
    ((Portfolio.mk 100 [("A", 5)]).buy "A" 2 3).2 = true ↔ (2 * 3 : ℚ) ≤ 100 :=
  (buy_sell_contract (Portfolio.mk 100 [("A", 5)]) "A" 2 3 (by decide)).1

/-! ## Ledger invariants (spec §8, claim C2) -/

theorem eps10_pos : 0 < eps10 := by norm_num [eps10]

theorem eps10_lt_eps9 : eps10 < eps9 := by norm_num [eps10, eps9]

/-- One external call to the ledger. -/
inductive PortOp
  | buyOp (s : Symb) (shares price : ℚ)
  | sellOp (s : Symb) (shares price : ℚ)
deriving DecidableEq

/-- Restriction on calls under which the ledger invariants are preserved:
non-negative prices, non-negative sold quantities, and bought quantities of
at least the `1e-10` dust threshold. -/
def PortOp.Valid : PortOp → Prop
  | .buyOp _ sh p => eps10 ≤ sh ∧ 0 ≤ p
  | .sellOp _ sh p => 0 ≤ sh ∧ 0 ≤ p

instance : DecidablePred PortOp.Valid := fun op =>
  match op with
  | .buyOp _ sh p => inferInstanceAs (Decidable (eps10 ≤ sh ∧ 0 ≤ p))
  | .sellOp _ sh p => inferInstanceAs (Decidable (0 ≤ sh ∧ 0 ≤ p))

/-- Apply one call, keeping only the resulting ledger. -/
def applyOp (P : Portfolio) : PortOp → Portfolio
  | .buyOp s sh p => (P.buy s sh p).1
  | .sellOp s sh p => (P.sell s sh p).1

/-- The ledger invariant: non-negative cash and no stored dust entry
(balances at or above `1e-10`). -/
def LedgerInv (P : Portfolio) : Prop :=
  0 ≤ P.cash ∧ ∀ e ∈ P.holdings, eps10 ≤ e.2

instance : DecidablePred LedgerInv := fun P =>
  inferInstanceAs (Decidable (0 ≤ P.cash ∧ ∀ e ∈ P.holdings, eps10 ≤ e.2))

theorem LedgerInv_buy (P : Portfolio) (s : Symb) (sh p : ℚ) (hInv : LedgerInv P)
    (hsh : eps10 ≤ sh) : LedgerInv (P.buy s sh p).1 := by
  by_cases hc : sh * p ≤ P.cash
  · constructor
    · simp only [Portfolio.buy, if_pos hc]
      linarith
    · intro e he
      simp only [Portfolio.buy, if_pos hc] at he
      rcases mem_hSet he with rfl | hmem
      · rcases hl : hLookup s P.holdings with _ | b
        · simpa [hl] using hsh
        · have hb := hInv.2 _ (hLookup_mem hl)
          have : (0:ℚ) < eps10 := eps10_pos
          simp only [hl, Option.getD_some]
          dsimp only at hb ⊢
          linarith
      · exact hInv.2 _ hmem
  · simp only [Portfolio.buy, if_neg hc]
    exact hInv

theorem LedgerInv_sell (P : Portfolio) (s : Symb) (sh p : ℚ) (hInv : LedgerInv P)
    (hsh : 0 ≤ sh) (hp : 0 ≤ p) : LedgerInv (P.sell s sh p).1 := by
  rcases hh : hLookup s P.holdings with _ | b
  · simp only [Portfolio.sell, hh]
    exact hInv
  · by_cases hsb : sh ≤ b
    · constructor
      · simp only [Portfolio.sell, hh, if_pos hsb]
        have : 0 ≤ sh * p := mul_nonneg hsh hp
        linarith [hInv.1]
      · intro e he
        by_cases hlt : b - sh < eps10
        · simp only [Portfolio.sell, hh, if_pos hsb, if_pos hlt] at he
          exact hInv.2 _ (mem_hErase_hSet he)
        · simp only [Portfolio.sell, hh, if_pos hsb, if_neg hlt] at he
          rcases mem_hSet he with rfl | hmem
          · simpa using not_lt.mp hlt
          · exact hInv.2 _ hmem
    · simp only [Portfolio.sell, hh, if_neg hsb]
      exact hInv

theorem LedgerInv_foldl (P : Portfolio) (ops : List PortOp) (hInv : LedgerInv P)
    (hops : ∀ op ∈ ops, op.Valid) : LedgerInv (ops.foldl applyOp P) := by
  induction ops generalizing P with
  | nil => exact hInv
  | cons op rest ih =>
    have hop := hops op (List.mem_cons_self _ _)
    have h1 : LedgerInv (applyOp P op) := by
      cases op with
      | buyOp s sh p => exact LedgerInv_buy P s sh p hInv hop.1
      | sellOp s sh p => exact LedgerInv_sell P s sh p hInv hop.1 hop.2
    exact ih _ h1 (fun o ho => hops o (List.mem_cons_of_mem _ ho))

theorem get_value_buy (P : Portfolio) (s : Symb) (sh p : ℚ)
    (prices : List (Symb × ℚ)) (hpr : hLookup s prices = some p) :
    (P.buy s sh p).1.get_value prices = P.get_value prices := by
  by_cases hc : sh * p ≤ P.cash
  · simp only [Portfolio.buy, if_pos hc, Portfolio.get_value]
    rw [holdVal_hSet]
    simp only [hpr, Option.getD_some]
    ring
  · simp [Portfolio.buy, hc]

theorem get_value_sell (P : Portfolio) (s : Symb) (sh p b : ℚ)
    (prices : List (Symb × ℚ)) (hpr : hLookup s prices = some p)
    (hh : hLookup s P.holdings = some b) (hsb : sh ≤ b) :
    (¬ b - sh < eps10 →
      (P.sell s sh p).1.get_value prices = P.get_value prices) ∧
    (b - sh < eps10 →
      (P.sell s sh p).1.get_value prices
        = P.get_value prices + (sh - b) * p) := by
  constructor
  · intro hge
    simp only [Portfolio.sell, hh, if_pos hsb, if_neg hge, Portfolio.get_value]
    rw [holdVal_hSet]
    simp only [hpr, hh, Option.getD_some]
    ring
  · intro hlt
    simp only [Portfolio.sell, hh, if_pos hsb, if_pos hlt, Portfolio.get_value]
    rw [holdVal_hErase, holdVal_hSet, hLookup_hSet_self]
    simp only [hpr, hh, Option.getD_some]
    ring

/-- C2 counterexample: the claim fails as stated.  A successful `buy` of
`1e-20` shares creates a stored holding of `1e-20`, violating the strict
`> 1e-10` invariant, and a `sell` that triggers the dust deletion changes
`get_value` under unchanged prices, violating exact value conservation;
moreover a sell at a negative price succeeds and drives cash negative. -/
theorem ledger_invariant_cex :
    ((0:ℚ) ≤ 1 ∧ ∀ e ∈ ([] : List (Symb × ℚ)), eps10 < e.2) ∧
    ((Portfolio.mk 1 []).buy "A" (1 / 10 ^ 20) 1).2 = true ∧
    hLookup "A" ((Portfolio.mk 1 []).buy "A" (1 / 10 ^ 20) 1).1.holdings
      = some (1 / 10 ^ 20) ∧
    ¬ eps10 < (1 / 10 ^ 20 : ℚ) ∧
    ((0:ℚ) ≤ 0 ∧ ∀ e ∈ [(("A", 3 / (2 * 10 ^ 10)) : Symb × ℚ)], eps10 < e.2) ∧
    ((Portfolio.mk 0 [("A", 3 / (2 * 10 ^ 10))]).sell "A" (1 / 10 ^ 10) 1).2
      = true ∧
    ((Portfolio.mk 0 [("A", 3 / (2 * 10 ^ 10))]).sell "A" (1 / 10 ^ 10) 1).1.get_value
        [("A", 1)]
      ≠ (Portfolio.mk 0 [("A", 3 / (2 * 10 ^ 10))]).get_value [("A", 1)] ∧
    ((Portfolio.mk 0 [("A", 1)]).sell "A" 1 (-5)).2 = true ∧
    ((Portfolio.mk 0 [("A", 1)]).sell "A" 1 (-5)).1.cash < 0 := by
  refine ⟨⟨by norm_num, by simp⟩, ?_, ?_, ?_, ⟨le_refl 0, ?_⟩, ?_, ?_, ?_, ?_⟩
  · decide
  · decide
  · decide
  · decide
  · decide
  · decide
  · decide
  · decide

/-- C2 (amended): restricted to calls with non-negative price, sells of
non-negative shares, and buys of at least `1e-10` shares, every ledger with
`cash ≥ 0` and all stored holdings `≥ 1e-10` keeps both invariants (the
dust bound is non-strict: a sell can leave a balance of exactly `1e-10`)
after every call; `get_value` under prices assigning the traded symbol the
traded price is exactly unchanged by a successful buy and by a successful
sell that keeps the entry, while a sell that deletes the entry changes it
by `(shares − previous balance)·price`, of magnitude at most
`1e-10 · |price|`. -/
theorem ledger_invariants_amended :
    (∀ (P : Portfolio) (ops : List PortOp), LedgerInv P → (∀ op ∈ ops, op.Valid) →
      LedgerInv (ops.foldl applyOp P)) ∧
    (∀ (P : Portfolio) (s : Symb) (sh p : ℚ) (prices : List (Symb × ℚ)),
      hLookup s prices = some p → (P.buy s sh p).2 = true →
      (P.buy s sh p).1.get_value prices = P.get_value prices) ∧
    (∀ (P : Portfolio) (s : Symb) (sh p b : ℚ) (prices : List (Symb × ℚ)),
      hLookup s prices = some p → hLookup s P.holdings = some b → sh ≤ b →
      (¬ b - sh < eps10 →
        (P.sell s sh p).1.get_value prices = P.get_value prices) ∧
      (b - sh < eps10 →
        (P.sell s sh p).1.get_value prices
          = P.get_value prices + (sh - b) * p ∧
        |(sh - b) * p| ≤ eps10 * |p|)) := by
  refine ⟨fun P ops h1 h2 => LedgerInv_foldl P ops h1 h2,
    fun P s sh p prices hpr _ => get_value_buy P s sh p prices hpr, ?_⟩
  intro P s sh p b prices hpr hh hsb
  have hgs := get_value_sell P s sh p b prices hpr hh hsb
  refine ⟨hgs.1, fun hlt => ⟨hgs.2 hlt, ?_⟩⟩
  have h1 : |sh - b| ≤ eps10 := by
    rw [abs_sub_comm, abs_of_nonneg (show (0:ℚ) ≤ b - sh by linarith)]
    linarith
  calc |(sh - b) * p| = |sh - b| * |p| := abs_mul _ _
    _ ≤ eps10 * |p| := mul_le_mul_of_nonneg_right h1 (abs_nonneg p)

/-- Closed instance of `ledger_invariants_amended` on a concrete call
sequence. -/
theorem ledger_invariants_amended_w :
    LedgerInv (([PortOp.buyOp "A" 1 2, PortOp.sellOp "A" 1 2]).foldl applyOp
      (Portfolio.mk 10 [])) :=
  ledger_invariants_amended.1 (Portfolio.mk 10 []) _ (by decide) (by decide)

/-! ## The sell/re-buy round trip (spec §8, claim C3) -/

/-- Equality of optional holdings up to the `1e-9` floating-point
tolerance named by the spec. -/
def optClose : Option ℚ → Option ℚ → Prop
  | none, none => True
  | some a, some b => |a - b| < eps9
  | _, _ => False

theorem optClose_refl (o : Option ℚ) : optClose o o := by
  cases o with
  | none => trivial
  | some a => simp [optClose, eps9]

/-- C3: from any well-formed ledger state with non-negative cash, a
successful `sell symbol shares price` immediately followed by
`buy symbol shares price` succeeds and restores the prior cash exactly and
the prior holdings mapping up to a discrepancy below `1e-9` (the deleted
dust entry is recreated at `shares` instead of its old balance, a
difference below `1e-10`). -/
theorem sell_buy_roundtrip (P : Portfolio) (s : Symb) (sh p b : ℚ)
    (hW : P.WF) (hc : 0 ≤ P.cash) (hh : hLookup s P.holdings = some b)
    (hsb : sh ≤ b) :
    (P.sell s sh p).2 = true ∧
    ((P.sell s sh p).1.buy s sh p).2 = true ∧
    ((P.sell s sh p).1.buy s sh p).1.cash = P.cash ∧
    ∀ t, optClose (hLookup t ((P.sell s sh p).1.buy s sh p).1.holdings)
      (hLookup t P.holdings) := by
  have hsell : (P.sell s sh p).2 = true := by simp [Portfolio.sell, hh, hsb]
  have hcash1 : (P.sell s sh p).1.cash = P.cash + sh * p := by
    by_cases hlt : b - sh < eps10 <;> simp [Portfolio.sell, hh, hsb, hlt]
  have hbuyok : sh * p ≤ (P.sell s sh p).1.cash := by rw [hcash1]; linarith
  refine ⟨hsell, ?_, ?_, ?_⟩
  · simp [Portfolio.buy, hbuyok]
  · simp only [Portfolio.buy, if_pos hbuyok]
    rw [hcash1]
    ring
  · intro t
    have hbuyh : ((P.sell s sh p).1.buy s sh p).1.holdings
        = hSet s ((hLookup s (P.sell s sh p).1.holdings).getD 0 + sh)
            (P.sell s sh p).1.holdings := by
      simp [Portfolio.buy, hbuyok]
    by_cases hts : t = s
    · subst hts
      by_cases hlt : b - sh < eps10
      · have h1 : hLookup t (P.sell t sh p).1.holdings = none := by
          simp [Portfolio.sell, hh, hsb, hlt, hLookup_hErase_hSet _ _ _ hW]
        rw [hbuyh, hLookup_hSet_self, h1, hh]
        simp only [optClose, Option.getD_none]
        rw [abs_sub_comm, show b - (0 + sh) = b - sh by ring,
          abs_of_nonneg (show (0:ℚ) ≤ b - sh by linarith)]
        calc b - sh < eps10 := hlt
          _ < eps9 := eps10_lt_eps9
      · have h1 : hLookup t (P.sell t sh p).1.holdings = some (b - sh) := by
          simp [Portfolio.sell, hh, hsb, hlt, hLookup_hSet_self]
        rw [hbuyh, hLookup_hSet_self, h1, hh]
        simp only [optClose, Option.getD_some]
        rw [show b - sh + sh - b = 0 by ring]
        simp [eps9]
    · have h3 : hLookup t (P.sell s sh p).1.holdings = hLookup t P.holdings := by
        by_cases hlt : b - sh < eps10 <;>
          simp [Portfolio.sell, hh, hsb, hlt, hLookup_hSet_ne _ _ _ _ hts,
            hLookup_hErase_ne _ _ _ hts]
      rw [hbuyh, hLookup_hSet_ne _ _ _ _ hts, h3]
      exact optClose_refl _

/-- Closed instance of `sell_buy_roundtrip` at a concrete ledger. -/
theorem sell_buy_roundtrip_w :
    ((Portfolio.mk 100 [("A", 5)]).sell "A" 2 3).2 = true ∧
    (((Portfolio.mk 100 [("A", 5)]).sell "A" 2 3).1.buy "A" 2 3).2 = true ∧
    (((Portfolio.mk 100 [("A", 5)]).sell "A" 2 3).1.buy "A" 2 3).1.cash = 100 :=
  have h := sell_buy_roundtrip (Portfolio.mk 100 [("A", 5)]) "A" 2 3 5
    (by decide) (by decide) (by decide) (by decide)
  ⟨h.1, h.2.1, h.2.2.1⟩

/-! ## Trading engine (`trading_engine.py`) -/

/-- A price observation as seen by the engine; `none` models `NaN`/missing
(the spec's uniform "no value" sentinel). -/
abbrev PriceObs := Option ℚ

structure TradingEngine where
  buy_threshold : ℚ
  sell_threshold : ℚ
  buy_amount : ℚ
  sell_amount : ℚ
deriving DecidableEq

/-- The constructor defaults of `TradingEngine()`:
`(-0.05, 0.10, 5.0, 10.0)`. -/
def defaultEngine : TradingEngine :=
  { buy_threshold := -(5 / 100), sell_threshold := 10 / 100,
    buy_amount := 5, sell_amount := 10 }

/-- `TradingEngine.calculate_weekly_change` (trading_engine.py lines
33–61): latest price against the price 7 observations back (earliest when
fewer than 7 exist), `none` on short series, missing endpoints, or a
reference of magnitude below `1e-10`. -/
def calculate_weekly_change (prices : List PriceObs) : Option ℚ :=
  if prices.length < 2 then none
  else
    let current_price := prices.getD (prices.length - 1) none
    let week_ago_price :=
      if 7 ≤ prices.length then prices.getD (prices.length - 7) none
      else prices.getD 0 none
    match week_ago_price, current_price with
    | some w, some c => if |w| < eps10 then none else some ((c - w) / w)
    | _, _ => none

inductive Signal
  | BUY
  | SELL
  | HOLD
deriving DecidableEq

/-- `TradingEngine.generate_signal` (lines 63–88): the
`(signal, amount, weekly change)` triple. -/
def generate_signal (e : TradingEngine) (prices : List PriceObs) :
    Signal × ℚ × Option ℚ :=
  match calculate_weekly_change prices with
  | none => (Signal.HOLD, 0, none)
  | some pct =>
    if pct ≤ e.buy_threshold then (Signal.BUY, e.buy_amount, some pct)
    else if e.sell_threshold ≤ pct then (Signal.SELL, e.sell_amount, some pct)
    else (Signal.HOLD, 0, some pct)

/-- One entry of the trades dict built by `execute_trades`. -/
structure TradeRec where
  signal : Signal
  amount : ℚ
  shares : ℚ
  price : Option ℚ
  weekly_change : Option ℚ
deriving DecidableEq

/-- `TradingEngine.execute_trades` (lines 90–117): keeps the symbols with
a non-HOLD signal; `shares = amount / price` is guarded to `0` when the
current price is missing, zero (Python falsiness) or of magnitude not
above `1e-10`. -/
def execute_trades (e : TradingEngine)
    (stock_data : List (Symb × List PriceObs)) : List (Symb × TradeRec) :=
  stock_data.filterMap (fun entry =>
    let sig := generate_signal e entry.2
    if sig.1 = Signal.HOLD then none
    else
      let current_price : Option ℚ :=
        if 0 < entry.2.length then entry.2.getD (entry.2.length - 1) none
        else none
      let shares : ℚ :=
        match current_price with
        | some c => if c ≠ 0 ∧ eps10 < |c| then sig.2.1 / c else 0
        | none => 0
      some (entry.1, ⟨sig.1, sig.2.1, shares, current_price, sig.2.2⟩))

/-- C4: the weekly change is `none` on series of fewer than 2 points;
otherwise it compares the latest price `c` against the reference `w` at
position `len − 7` when at least 7 points exist and at position `0`
otherwise, returning `(c − w) / w`, with `none` whenever either endpoint
is missing/non-finite or `|w| < 1e-10`. -/
theorem weekly_change_spec (prices : List PriceObs) :
    (prices.length < 2 → calculate_weekly_change prices = none) ∧
    (2 ≤ prices.length →
      (∀ w c,
        prices.getD (if 7 ≤ prices.length then prices.length - 7 else 0) none
          = some w →
        prices.getD (prices.length - 1) none = some c →
        (|w| < eps10 → calculate_weekly_change prices = none) ∧
        (¬ |w| < eps10 →
          calculate_weekly_change prices = some ((c - w) / w))) ∧
      (prices.getD (if 7 ≤ prices.length then prices.length - 7 else 0) none
          = none →
        calculate_weekly_change prices = none) ∧
      (prices.getD (prices.length - 1) none = none →
        calculate_weekly_change prices = none)) := by
  constructor
  · intro h
    simp [calculate_weekly_change, h]
  · intro h2
    have hlen : ¬ prices.length < 2 := not_lt.mpr h2
    by_cases h7 : 7 ≤ prices.length
    · refine ⟨?_, ?_, ?_⟩
      · intro w c hw hc
        rw [if_pos h7] at hw
        rw [List.getD_eq_getElem?_getD] at hw hc
        constructor
        · intro habs
          simp [calculate_weekly_change, hlen, h7, hw, hc, habs]
        · intro habs
          simp [calculate_weekly_change, hlen, h7, hw, hc, habs]
      · intro hw
        rw [if_pos h7] at hw
        rw [List.getD_eq_getElem?_getD] at hw
        simp [calculate_weekly_change, hlen, h7, hw]
      · intro hc
        rw [List.getD_eq_getElem?_getD] at hc
        rcases hw : prices[prices.length - 7]?.getD none with _ | w <;>
          simp [calculate_weekly_change, hlen, h7, hw, hc]
    · refine ⟨?_, ?_, ?_⟩
      · intro w c hw hc
        rw [if_neg h7] at hw
        rw [List.getD_eq_getElem?_getD] at hw hc
        constructor
        · intro habs
          simp [calculate_weekly_change, hlen, h7, hw, hc, habs]
        · intro habs
          simp [calculate_weekly_change, hlen, h7, hw, hc, habs]
      · intro hw
        rw [if_neg h7] at hw
        rw [List.getD_eq_getElem?_getD] at hw
        simp [calculate_weekly_change, hlen, h7, hw]
      · intro hc
        rw [List.getD_eq_getElem?_getD] at hc
        rcases hw : prices[0]?.getD none with _ | w <;>
          simp [calculate_weekly_change, hlen, h7, hw, hc]

/-- Closed instance of `weekly_change_spec` on a two-point series. -/
theorem weekly_change_spec_w :
    calculate_weekly_change [some 1, some 2] = some ((2 - 1) / 1) :=
  ((((weekly_change_spec [some 1, some 2]).2 (by decide)).1 1 2
    (by decide) (by decide)).2 (by decide))

/-- C5 counterexample: the claim quantifies over every positive flat level
`p`, but at `p = 1e-11` the `1e-10` reference-magnitude guard fires, the
weekly change is `None` and the default-threshold decision is HOLD with
amount `0`, not BUY with `5.0`. -/
theorem default_signal_cex :
    (0 : ℚ) < mkRat 1 (10 ^ 11) ∧
    calculate_weekly_change
        [some (mkRat 1 (10 ^ 11)), some (mkRat 1 (10 ^ 11)),
         some (mkRat 1 (10 ^ 11)), some (mkRat 1 (10 ^ 11)),
         some (mkRat 1 (10 ^ 11)), some (mkRat 1 (10 ^ 11)),
         some (mkRat 1 (10 ^ 11)), some (94 / 100 * mkRat 1 (10 ^ 11))]
      = none ∧
    generate_signal defaultEngine
        [some (mkRat 1 (10 ^ 11)), some (mkRat 1 (10 ^ 11)),
         some (mkRat 1 (10 ^ 11)), some (mkRat 1 (10 ^ 11)),
         some (mkRat 1 (10 ^ 11)), some (mkRat 1 (10 ^ 11)),
         some (mkRat 1 (10 ^ 11)), some (94 / 100 * mkRat 1 (10 ^ 11))]
      = (Signal.HOLD, 0, none) ∧
    generate_signal defaultEngine
        [some (mkRat 1 (10 ^ 11)), some (mkRat 1 (10 ^ 11)),
         some (mkRat 1 (10 ^ 11)), some (mkRat 1 (10 ^ 11)),
         some (mkRat 1 (10 ^ 11)), some (mkRat 1 (10 ^ 11)),
         some (mkRat 1 (10 ^ 11)), some (94 / 100 * mkRat 1 (10 ^ 11))]
      ≠ (Signal.BUY, 5, some (-(6 / 100))) := by
  decide

/-- C5 (amended): for every flat level `p` at or above the `1e-10` guard,
seven points at `p` followed by one at `0.94·p` give weekly change exactly
`-0.06` and a BUY of `5.0` under default thresholds; a final point at
`1.12·p` gives SELL of `10.0`, and at `1.03·p` HOLD with amount `0`. -/
theorem default_signal_thresholds (p : ℚ) (hp : eps10 ≤ p) :
    calculate_weekly_change
        [some p, some p, some p, some p, some p, some p, some p,
         some (94 / 100 * p)] = some (-(6 / 100)) ∧
    generate_signal defaultEngine
        [some p, some p, some p, some p, some p, some p, some p,
         some (94 / 100 * p)] = (Signal.BUY, 5, some (-(6 / 100))) ∧
    generate_signal defaultEngine
        [some p, some p, some p, some p, some p, some p, some p,
         some (112 / 100 * p)] = (Signal.SELL, 10, some (12 / 100)) ∧
    generate_signal defaultEngine
        [some p, some p, some p, some p, some p, some p, some p,
         some (103 / 100 * p)] = (Signal.HOLD, 0, some (3 / 100)) := by
  have hp0 : (0:ℚ) < p := lt_of_lt_of_le eps10_pos hp
  have hpne : p ≠ 0 := ne_of_gt hp0
  have habs : ¬ |p| < eps10 := by
    rw [abs_of_pos hp0]
    exact not_lt.mpr hp
  have e94 : (94 / 100 * p - p) / p = -(6 / 100) := by
    field_simp
    ring
  have e112 : (112 / 100 * p - p) / p = 12 / 100 := by
    field_simp
    ring
  have e103 : (103 / 100 * p - p) / p = 3 / 100 := by
    field_simp
    ring
  have hcw94 : calculate_weekly_change
      [some p, some p, some p, some p, some p, some p, some p,
       some (94 / 100 * p)] = some (-(6 / 100)) := by
    simp [calculate_weekly_change, habs, e94]
  have hcw112 : calculate_weekly_change
      [some p, some p, some p, some p, some p, some p, some p,
       some (112 / 100 * p)] = some (12 / 100) := by
    simp [calculate_weekly_change, habs, e112]
  have hcw103 : calculate_weekly_change
      [some p, some p, some p, some p, some p, some p, some p,
       some (103 / 100 * p)] = some (3 / 100) := by
    simp [calculate_weekly_change, habs, e103]
  have t1 : (-(6 / 100) : ℚ) ≤ -(5 / 100) := by norm_num
  have t2 : ¬ ((12 / 100 : ℚ) ≤ -(5 / 100)) := by norm_num
  have t3 : ((10 / 100 : ℚ) ≤ 12 / 100) := by norm_num
  have t4 : ¬ ((3 / 100 : ℚ) ≤ -(5 / 100)) := by norm_num
  have t5 : ¬ ((10 / 100 : ℚ) ≤ 3 / 100) := by norm_num
  refine ⟨hcw94, ?_, ?_, ?_⟩
  · simp [generate_signal, hcw94, defaultEngine, t1]
  · simp [generate_signal, hcw112, defaultEngine, t2, t3]
  · simp [generate_signal, hcw103, defaultEngine, t4, t5]

/-- Closed instance of `default_signal_thresholds` at `p = 1`. -/
theorem default_signal_thresholds_w :
    generate_signal defaultEngine
        [some 1, some 1, some 1, some 1, some 1, some 1, some 1,
         some (94 / 100 * 1)] = (Signal.BUY, 5, some (-(6 / 100))) :=
  (default_signal_thresholds 1 (by decide)).2.1

/-! ## Stock selector (`stock_selector.py`) -/

structure SelectorConfig where
  min_volatility : ℚ
  max_volatility : ℚ
  min_data_points : ℕ
deriving DecidableEq

/-- The constructor defaults of `StockSelector()`: `(0.01, 0.5, 30)`. -/
def defaultSelector : SelectorConfig :=
  { min_volatility := 1 / 100, max_volatility := 1 / 2, min_data_points := 30 }

/-- `prices.pct_change().dropna()`: period-over-period returns (the single
leading `NaN` dropped). -/
def pct_changes (prices : List ℚ) : List ℚ :=
  List.zipWith (fun a b => (b - a) / a) prices prices.tail

def listMean (l : List ℚ) : ℚ := l.sum / l.length

/-- Pandas sample variance (`ddof = 1`). -/
def sampleVar (l : List ℚ) : ℚ :=
  ((l.map (fun x => (x - listMean l) ^ 2)).sum) / ((l.length : ℚ) - 1)

noncomputable def sampleStd (l : List ℚ) : ℝ := Real.sqrt ((sampleVar l : ℚ) : ℝ)

/-- `StockSelector.calculate_volatility` (stock_selector.py lines 29–48):
`returns.std() * √252`.  `none` models the NaN results: fewer than 2
prices, no returns, or the undefined (`0/0`) sample deviation of a single
return. -/
noncomputable def calculate_volatility (prices : List ℚ) : Option ℝ :=
  if prices.length < 2 then none
  else
    let returns := pct_changes prices
    if returns.length = 0 then none
    else if returns.length < 2 then none
    else some (sampleStd returns * Real.sqrt 252)

/-- The volatility scoring branch of `calculate_predictability_score`
(lines 69–77). -/
noncomputable def volatility_score (cfg : SelectorConfig) (vol : ℝ) : ℝ :=
  if vol < (cfg.min_volatility : ℝ) ∨ (cfg.max_volatility : ℝ) < vol then 0
  else
    let mid_point : ℝ := ((cfg.min_volatility : ℝ) + (cfg.max_volatility : ℝ)) / 2
    let distance_from_mid := |vol - mid_point|
    let max_distance : ℝ := ((cfg.max_volatility : ℝ) - (cfg.min_volatility : ℝ)) / 2
    1 - distance_from_mid / max_distance

/-- `(returns[1:].values * returns[:-1].values > 0).sum()` (line 87). -/
def same_direction (returns : List ℚ) : ℕ :=
  (List.zipWith (fun a b => a * b) (returns.drop 1) returns).countP
    (fun x => decide (0 < x))

/-- `StockSelector.calculate_predictability_score` (lines 50–94). -/
noncomputable def calculate_predictability_score (cfg : SelectorConfig)
    (prices : List ℚ) : ℝ :=
  if prices.length < cfg.min_data_points then 0
  else
    match calculate_volatility prices with
    | none => 0
    | some vol =>
      let vs := volatility_score cfg vol
      let returns := pct_changes prices
      if returns.length < 2 then 0
      else
        let consistency_score : ℚ :=
          if 1 < returns.length then
            (same_direction returns : ℚ) / ((returns.length : ℚ) - 1)
          else 1 / 2
        (6 / 10) * vs + (4 / 10) * (consistency_score : ℝ)

/-- C6: the predictability score is `0` below the length gate or when
volatility is NaN; otherwise it is
`0.6·volatility_score + 0.4·consistency_score` with the consistency score
the fraction of consecutive same-sign return pairs — and in that branch at
least 2 returns exist (for every `min_data_points`), so the `0.5` fallback
is unreachable; the volatility score is `0` outside
`[min_volatility, max_volatility]`, is the linear ramp
`1 − |vol − mid| / ((max−min)/2)` inside, peaks at `1` at the midpoint and
falls to `0` at either edge. -/
theorem predictability_spec :
    (∀ (cfg : SelectorConfig) (prices : List ℚ),
      prices.length < cfg.min_data_points →
      calculate_predictability_score cfg prices = 0) ∧
    (∀ (cfg : SelectorConfig) (prices : List ℚ),
      calculate_volatility prices = none →
      calculate_predictability_score cfg prices = 0) ∧
    (∀ (cfg : SelectorConfig) (prices : List ℚ) (vol : ℝ),
      cfg.min_data_points ≤ prices.length →
      calculate_volatility prices = some vol →
      2 ≤ (pct_changes prices).length ∧
      calculate_predictability_score cfg prices
        = (6 / 10) * volatility_score cfg vol
          + (4 / 10) * ((((same_direction (pct_changes prices) : ℚ)
              / (((pct_changes prices).length : ℚ) - 1) : ℚ) : ℝ))) ∧
    (∀ (cfg : SelectorConfig) (vol : ℝ),
      (vol < (cfg.min_volatility : ℝ) ∨ (cfg.max_volatility : ℝ) < vol →
        volatility_score cfg vol = 0) ∧
      ((cfg.min_volatility : ℝ) ≤ vol → vol ≤ (cfg.max_volatility : ℝ) →
        volatility_score cfg vol
          = 1 - |vol - ((cfg.min_volatility : ℝ) + (cfg.max_volatility : ℝ)) / 2|
              / (((cfg.max_volatility : ℝ) - (cfg.min_volatility : ℝ)) / 2))) ∧
    (∀ cfg : SelectorConfig, (cfg.min_volatility : ℝ) < (cfg.max_volatility : ℝ) →
      volatility_score cfg
          ((((cfg.min_volatility + cfg.max_volatility) / 2 : ℚ) : ℝ)) = 1 ∧
      volatility_score cfg (cfg.min_volatility : ℝ) = 0 ∧
      volatility_score cfg (cfg.max_volatility : ℝ) = 0) := by
  refine ⟨?_, ?_, ?_, ?_, ?_⟩
  · intro cfg prices h
    simp [calculate_predictability_score, h]
  · intro cfg prices h
    by_cases hgate : prices.length < cfg.min_data_points
    · simp [calculate_predictability_score, hgate]
    · simp [calculate_predictability_score, hgate, h]
  · intro cfg prices vol hgate hvol
    have hg : ¬ prices.length < cfg.min_data_points := not_lt.mpr hgate
    have hret : 2 ≤ (pct_changes prices).length := by
      by_cases h1 : prices.length < 2
      · simp [calculate_volatility, h1] at hvol
      · by_cases hz : (pct_changes prices).length = 0
        · simp [calculate_volatility, h1, hz] at hvol
        · by_cases h3 : (pct_changes prices).length < 2
          · simp [calculate_volatility, h1, hz, h3] at hvol
          · omega
    refine ⟨hret, ?_⟩
    have h2 : ¬ (pct_changes prices).length < 2 := not_lt.mpr hret
    have h1 : 1 < (pct_changes prices).length := by omega
    simp [calculate_predictability_score, hg, hvol, h2, h1]
  · intro cfg vol
    constructor
    · intro h
      simp [volatility_score, h]
    · intro hlo hhi
      have h : ¬ (vol < (cfg.min_volatility : ℝ) ∨ (cfg.max_volatility : ℝ) < vol) := by
        push_neg
        exact ⟨hlo, hhi⟩
      simp [volatility_score, h]
  · intro cfg hab
    have hmidlo : (cfg.min_volatility : ℝ)
        ≤ (((cfg.min_volatility + cfg.max_volatility) / 2 : ℚ) : ℝ) := by
      push_cast
      linarith
    have hmidhi : (((cfg.min_volatility + cfg.max_volatility) / 2 : ℚ) : ℝ)
        ≤ (cfg.max_volatility : ℝ) := by
      push_cast
      linarith
    have hne : ((cfg.max_volatility : ℝ) - (cfg.min_volatility : ℝ)) / 2 ≠ 0 := by
      intro h0
      have : (cfg.max_volatility : ℝ) = (cfg.min_volatility : ℝ) := by linarith
      linarith
    have hno : ∀ v : ℝ, (cfg.min_volatility : ℝ) ≤ v → v ≤ (cfg.max_volatility : ℝ) →
        ¬ (v < (cfg.min_volatility : ℝ) ∨ (cfg.max_volatility : ℝ) < v) := by
      intro v h1 h2
      push_neg
      exact ⟨h1, h2⟩
    refine ⟨?_, ?_, ?_⟩
    · simp only [volatility_score, if_neg (hno _ hmidlo hmidhi)]
      have hmid : ((((cfg.min_volatility + cfg.max_volatility) / 2 : ℚ) : ℝ))
          = ((cfg.min_volatility : ℝ) + (cfg.max_volatility : ℝ)) / 2 := by
        push_cast
        ring
      rw [hmid, sub_self, abs_zero, zero_div, sub_zero]
    · simp only [volatility_score, if_neg (hno _ le_rfl (le_of_lt hab))]
      have habs : |(cfg.min_volatility : ℝ)
          - ((cfg.min_volatility : ℝ) + (cfg.max_volatility : ℝ)) / 2|
          = ((cfg.max_volatility : ℝ) - (cfg.min_volatility : ℝ)) / 2 := by
        rw [abs_of_nonpos (by linarith)]
        ring
      rw [habs, div_self hne]
      ring
    · simp only [volatility_score, if_neg (hno _ (le_of_lt hab) le_rfl)]
      have habs : |(cfg.max_volatility : ℝ)
          - ((cfg.min_volatility : ℝ) + (cfg.max_volatility : ℝ)) / 2|
          = ((cfg.max_volatility : ℝ) - (cfg.min_volatility : ℝ)) / 2 := by
        rw [abs_of_nonneg (by linarith)]
        ring
      rw [habs, div_self hne]
      ring

/-- Closed instance of `predictability_spec`: a one-point series scores
`0` under the default gate. -/
theorem predictability_spec_w :
    calculate_predictability_score defaultSelector [1] = 0 :=
  predictability_spec.1 defaultSelector [1] (by decide)

/-! ## Backtest driver (`backtest.py`, class `Backtester`) -/

/-- A price series: `(timestamp, price)` points in time order. -/
abbrev Series := List (ℕ × ℚ)

abbrev StockData := List (Symb × Series)

/-- Insertion into a sorted list of timestamps. -/
def insertSorted (x : ℕ) : List ℕ → List ℕ
  | [] => [x]
  | y :: ys => if x ≤ y then x :: y :: ys else y :: insertSorted x ys

/-- `sorted(...)` on timestamps, as insertion sort. -/
def sortDates (l : List ℕ) : List ℕ := l.foldr insertSorted []

/-- Every timestamp appearing in any input series (with repetitions). -/
def datesUnion (sd : StockData) : List ℕ :=
  sd.foldr (fun e acc => e.2.map Prod.fst ++ acc) []

/-- `sorted(set(...))` over all series' timestamps (lines 186–189). -/
def allDates (sd : StockData) : List ℕ := sortDates (datesUnion sd).dedup

theorem length_insertSorted (x : ℕ) (l : List ℕ) :
    (insertSorted x l).length = l.length + 1 := by
  induction l with
  | nil => rfl
  | cons y ys ih =>
    by_cases h : x ≤ y <;> simp [insertSorted, h, ih]

theorem length_sortDates (l : List ℕ) : (sortDates l).length = l.length := by
  induction l with
  | nil => rfl
  | cons x xs ih =>
    simp [sortDates, List.foldr_cons, length_insertSorted] at *
    exact ih

/-- `prices.loc[date]` when `date` is in the series' index. -/
def seriesAt (s : Series) (d : ℕ) : Option ℚ :=
  (s.find? (fun pt => pt.1 == d)).map (fun pt => pt.2)

structure Snapshot where
  date : ℕ
  cash : ℚ
  holdings_value : ℚ
  total_value : ℚ
  holdings : List (Symb × ℚ)
deriving DecidableEq

/-- `Portfolio.record_state` (lines 99–116): the snapshot appended to the
history. -/
def record_state (P : Portfolio) (date : ℕ)
    (current_prices : List (Symb × ℚ)) : Snapshot :=
  let total_value := P.get_value current_prices
  { date := date, cash := P.cash, holdings_value := total_value - P.cash,
    total_value := total_value, holdings := P.holdings }

inductive TAction
  | BUY
  | SELL
deriving DecidableEq

/-- One entry of `Backtester.trade_log`. -/
structure LogEntry where
  date : ℕ
  symbol : Symb
  action : TAction
  shares : ℚ
  price : ℚ
  amount : ℚ
  weekly_change : Option ℚ
deriving DecidableEq

/-- One step of the running-peak drawdown loop (lines 294–297). -/
def drawdownStep : ℚ × ℚ → ℚ → ℚ × ℚ
  | (max_value, max_drawdown), tv =>
    let m := max max_value tv
    (m, max max_drawdown ((m - tv) / m))

/-- The running-peak max drawdown of `_calculate_results` (lines 291–297),
with the peak initialised at `initial`. -/
def maxDrawdown (initial : ℚ) (tvs : List ℚ) : ℚ :=
  (tvs.foldl drawdownStep (initial, 0)).2

/-- The `BacktestSummary` dict returned by `_calculate_results`. -/
structure Results where
  initial_value : ℚ
  final_value : ℚ
  total_return : ℚ
  total_return_pct : ℚ
  max_drawdown : ℚ
  total_trades : ℕ
  buy_trades : ℕ
  sell_trades : ℕ
  portfolio_history : List Snapshot
  trade_log : List LogEntry
  final_holdings : List (Symb × ℚ)
deriving DecidableEq

/-- `Backtester._calculate_results` (lines 280–315). -/
def calculate_results (P : Portfolio) (history : List Snapshot)
    (trade_log : List LogEntry) : Option Results :=
  match history with
  | [] => none
  | h0 :: rest =>
    let initial_value := h0.total_value
    let final_value := (List.getLastD rest h0).total_value
    let total_return := (final_value - initial_value) / initial_value
    some { initial_value := initial_value, final_value := final_value,
           total_return := total_return,
           total_return_pct := total_return * 100,
           max_drawdown := maxDrawdown initial_value
             ((h0 :: rest).map (fun st => st.total_value)),
           total_trades := trade_log.length,
           buy_trades := (trade_log.filter
             (fun t => t.action == TAction.BUY)).length,
           sell_trades := (trade_log.filter
             (fun t => t.action == TAction.SELL)).length,
           portfolio_history := h0 :: rest,
           trade_log := trade_log,
           final_holdings := P.holdings }

/-- The `(portfolio, history, trade log)` state threaded by `run`. -/
structure SimState where
  portfolio : Portfolio
  history : List Snapshot
  trade_log : List LogEntry

/-- One iteration of the per-symbol trade loop of `Backtester.run` (lines
229–263): skip symbols without a current price, BUY with
`shares = amount / price` (no magnitude guard on `price`), SELL capped at
the held balance, log on success. -/
def processTrade (current_date : ℕ) (current_prices : List (Symb × ℚ))
    (acc : Portfolio × List LogEntry) (tr : Symb × TradeRec) :
    Portfolio × List LogEntry :=
  match hLookup tr.1 current_prices with
  | none => acc
  | some price =>
    match tr.2.signal with
    | Signal.BUY =>
      let shares := tr.2.amount / price
      let res := acc.1.buy tr.1 shares price
      if res.2 then
        (res.1, acc.2 ++ [⟨current_date, tr.1, TAction.BUY, shares, price,
          tr.2.amount, tr.2.weekly_change⟩])
      else acc
    | Signal.SELL =>
      let shares_to_sell := tr.2.amount / price
      match hLookup tr.1 acc.1.holdings with
      | none => acc
      | some held =>
        let actual_shares := min shares_to_sell held
        let res := acc.1.sell tr.1 actual_shares price
        if res.2 then
          (res.1, acc.2 ++ [⟨current_date, tr.1, TAction.SELL, actual_shares,
            price, actual_shares * price, tr.2.weekly_change⟩])
        else acc
    | Signal.HOLD => acc

/-- The body of one week of `Backtester.run` (lines 209–266): restrict
each series to the window up to `current_date`, run the algorithm, apply
its trades, record a snapshot (all skipped when the window map is empty). -/
def stepState (algo : StockData → List (Symb × TradeRec)) (sd : StockData)
    (current_date : ℕ) (st : SimState) : SimState :=
  let window : StockData :=
    (sd.map (fun e => (e.1, e.2.filter (fun pt => pt.1 ≤ current_date)))).filter
      (fun e => !e.2.isEmpty)
  if window.isEmpty then st
  else
    let trades := algo window
    let current_prices : List (Symb × ℚ) :=
      window.filterMap (fun e => (e.2.getLast?).map (fun pt => (e.1, pt.2)))
    let res := trades.foldl (processTrade current_date current_prices)
      (st.portfolio, st.trade_log)
    ⟨res.1, st.history ++ [record_state res.1 current_date current_prices],
      res.2⟩

/-- The week-by-week loop of `Backtester.run` (lines 205–273); the
remaining week budget `weeks − weeks_processed` is the structural fuel,
and the date index advances by 7 each iteration. -/
def simLoop (algo : StockData → List (Symb × TradeRec)) (allD : List ℕ)
    (sd : StockData) : ℕ → ℕ → SimState → SimState
  | 0, _, st => st
  | weeksLeft + 1, i, st =>
    if i < allD.length then
      simLoop algo allD sd weeksLeft (i + 7)
        (stepState algo sd (allD.getD i 0) st)
    else st

/-- `Backtester.run` (lines 170–278), parametric in the algorithm. -/
def runBacktest (algo : StockData → List (Symb × TradeRec)) (sd : StockData)
    (weeks : ℕ) (initial_cash : ℚ) : Option Results :=
  if sd.isEmpty then none
  else
    let allD := allDates sd
    if allD.length < 14 then none
    else
      let start_date := allD.getD 0 0
      let current_prices : List (Symb × ℚ) :=
        sd.filterMap (fun e => (seriesAt e.2 start_date).map (fun v => (e.1, v)))
      let P0 : Portfolio := { cash := initial_cash, holdings := [] }
      let st0 : SimState :=
        ⟨P0, [record_state P0 start_date current_prices], []⟩
      let stF := simLoop algo allD sd weeks 7 st0
      calculate_results stF.portfolio stF.history stF.trade_log

/-- `StockSelector.is_suitable` (stock_selector.py lines 96–119). -/
noncomputable def is_suitable (cfg : SelectorConfig) (prices : List ℚ) : Bool :=
  if prices.length < cfg.min_data_points then false
  else
    match calculate_volatility prices with
    | none => false
    | some vol =>
      if vol < (cfg.min_volatility : ℝ) ∨ (cfg.max_volatility : ℝ) < vol then
        false
      else decide (3 / 10 < calculate_predictability_score cfg prices)

/-- `StockSelector.filter_stocks` (lines 121–137). -/
noncomputable def filter_stocks (cfg : SelectorConfig)
    (stock_data : List (Symb × List ℚ)) : List Symb :=
  (stock_data.filter (fun e => is_suitable cfg e.2)).map Prod.fst

/-- `StockTradingAlgorithm.run` (stock_trading_algorithm.py lines 36–68):
filter to the suitable universe, then `execute_trades` over it (the engine
sees the same finite prices, `some`-wrapped). -/
noncomputable def algorithmRun (sel : SelectorConfig) (eng : TradingEngine)
    (window : StockData) : List (Symb × TradeRec) :=
  let priceLists : List (Symb × List ℚ) :=
    window.map (fun e => (e.1, e.2.map (fun pt => pt.2)))
  let suitable := filter_stocks sel priceLists
  let filtered := window.filter (fun e => suitable.contains e.1)
  execute_trades eng
    (filtered.map (fun e => (e.1, e.2.map (fun pt => (some pt.2 : PriceObs)))))

/-- The driver wired to the default algorithm, as `backtest.py` runs it. -/
noncomputable def backtestRun (sd : StockData) (weeks : ℕ)
    (initial_cash : ℚ) : Option Results :=
  runBacktest (algorithmRun defaultSelector defaultEngine) sd weeks initial_cash

theorem stepState_history (algo : StockData → List (Symb × TradeRec))
    (sd : StockData) (d : ℕ) (st : SimState) :
    ∃ ext, (stepState algo sd d st).history = st.history ++ ext := by
  simp only [stepState]
  split
  · exact ⟨[], (List.append_nil _).symm⟩
  · exact ⟨_, rfl⟩

theorem simLoop_history (algo : StockData → List (Symb × TradeRec))
    (allD : List ℕ) (sd : StockData) :
    ∀ (fuel i : ℕ) (st : SimState),
      ∃ ext, (simLoop algo allD sd fuel i st).history = st.history ++ ext := by
  intro fuel
  induction fuel with
  | zero => exact fun i st => ⟨[], by simp [simLoop]⟩
  | succ n ih =>
    intro i st
    by_cases hi : i < allD.length
    · obtain ⟨e1, he1⟩ := stepState_history algo sd (allD.getD i 0) st
      obtain ⟨e2, he2⟩ := ih (i + 7) (stepState algo sd (allD.getD i 0) st)
      refine ⟨e1 ++ e2, ?_⟩
      simp only [simLoop, if_pos hi]
      rw [he2, he1, List.append_assoc]
    · exact ⟨[], by simp [simLoop, hi]⟩

theorem calculate_results_of_ne_nil (P : Portfolio) (history : List Snapshot)
    (log : List LogEntry) (h : history ≠ []) :
    ∃ r, calculate_results P history log = some r := by
  cases history with
  | nil => exact absurd rfl h
  | cons h0 rest => exact ⟨_, rfl⟩

theorem simLoop_history_ne_nil (algo : StockData → List (Symb × TradeRec))
    (allD : List ℕ) (sd : StockData) (fuel i : ℕ) (st : SimState)
    (h : st.history ≠ []) : (simLoop algo allD sd fuel i st).history ≠ [] := by
  obtain ⟨ext, hext⟩ := simLoop_history algo allD sd fuel i st
  rw [hext]
  intro hc
  exact h (List.append_eq_nil.mp hc).1

/-- `run` returns `None` exactly on fewer than 14 distinct timestamps;
whatever the algorithm decides, a ledger history headed by the initial
snapshot always exists, so `_calculate_results` always succeeds. -/
theorem runBacktest_none_iff (algo : StockData → List (Symb × TradeRec))
    (sd : StockData) (weeks : ℕ) (cash : ℚ) :
    runBacktest algo sd weeks cash = none ↔ (allDates sd).length < 14 := by
  by_cases he : sd.isEmpty
  · have hsd : sd = [] := by
      cases sd
      · rfl
      · simp at he
    subst hsd
    constructor
    · intro _
      decide
    · intro _
      rfl
  · have he' : sd.isEmpty = false := by simpa using he
    by_cases hlen : (allDates sd).length < 14
    · constructor
      · intro _
        exact hlen
      · intro _
        simp [runBacktest, he', hlen]
    · have hsome : ∃ r, runBacktest algo sd weeks cash = some r := by
        simp only [runBacktest, he', Bool.false_eq_true, if_false, if_neg hlen]
        apply calculate_results_of_ne_nil
        apply simLoop_history_ne_nil
        simp
      obtain ⟨r, hr⟩ := hsome
      rw [hr]
      simp [hlen]

theorem calculate_results_initial (P : Portfolio) (h0 : Snapshot)
    (rest : List Snapshot) (log : List LogEntry) :
    (calculate_results P (h0 :: rest) log).map (fun r => r.initial_value)
      = some h0.total_value := rfl

theorem get_value_no_holdings (cash : ℚ) (prices : List (Symb × ℚ)) :
    Portfolio.get_value ⟨cash, []⟩ prices = cash := by
  simp [Portfolio.get_value, holdVal]

/-- Whatever the algorithm decides, a successful `run` reports the first
snapshot's total value, which is the initial cash (holdings are empty and
price the snapshot at `0` contribution regardless of the price map). -/
theorem runBacktest_initial (algo : StockData → List (Symb × TradeRec))
    (sd : StockData) (weeks : ℕ) (cash : ℚ)
    (hs : (runBacktest algo sd weeks cash).isSome = true) :
    (runBacktest algo sd weeks cash).map (fun r => r.initial_value)
      = some cash := by
  by_cases he : sd.isEmpty
  · simp [runBacktest, he] at hs
  · have he' : sd.isEmpty = false := by simpa using he
    by_cases hlen : (allDates sd).length < 14
    · simp [runBacktest, he', hlen] at hs
    · simp only [runBacktest, he', Bool.false_eq_true, if_false, if_neg hlen]
      obtain ⟨ext, hext⟩ := simLoop_history (algo) (allDates sd) sd weeks 7
        ⟨⟨cash, []⟩,
          [record_state ⟨cash, []⟩ ((allDates sd).getD 0 0)
            (sd.filterMap (fun e =>
              (seriesAt e.2 ((allDates sd).getD 0 0)).map (fun v => (e.1, v))))],
          []⟩
      rw [hext, List.singleton_append, calculate_results_initial]
      simp [record_state, get_value_no_holdings]

/-- A concrete map with exactly 14 distinct timestamps on one symbol. -/
def sdC7 : StockData :=
  [("A", [(0, 1), (1, 1), (2, 1), (3, 1), (4, 1), (5, 1), (6, 1),
          (7, 1), (8, 1), (9, 1), (10, 1), (11, 1), (12, 1), (13, 1)])]

/-- C7 counterexample: on 14 distinct timestamps with a zero week budget
no snapshot beyond the initial one is recorded, yet `run` returns a
complete summary rather than the claimed `EmptyHistory` failure — the
`_calculate_results` empty-history branch is unreachable from `run`
because the initial snapshot is always recorded. -/
theorem run_emptyhistory_cex :
    14 ≤ (datesUnion sdC7).dedup.length ∧
    (backtestRun sdC7 0 1000).isSome = true ∧
    (backtestRun sdC7 0 1000).map (fun r => r.portfolio_history.length)
      = some 1 :=
  ⟨by decide, rfl, rfl⟩

/-- C7 (amended): `run` fails exactly when fewer than 14 distinct
timestamps exist across the input series (the `InsufficientData` case,
which also covers an empty series map); in every other case — for every
week budget and initial cash, hence regardless of any per-trade
irregularity — it returns a complete summary, and the claimed
`EmptyHistory` failure never occurs. -/
theorem run_failure_semantics (sd : StockData) (weeks : ℕ) (cash : ℚ) :
    backtestRun sd weeks cash = none ↔ (datesUnion sd).dedup.length < 14 := by
  rw [show (datesUnion sd).dedup.length = (allDates sd).length from
    (length_sortDates _).symm]
  exact runBacktest_none_iff _ sd weeks cash

/-- Closed instance of `run_failure_semantics` on a one-point series. -/
theorem run_failure_semantics_w :
    backtestRun [("A", [(0, 1)])] 5 1000 = none :=
  (run_failure_semantics [("A", [(0, 1)])] 5 1000).mpr (by decide)

/-- C9: every successful `run` reports `initial_value` equal to the
initial cash exactly: the first snapshot is taken before any trade with
empty holdings, and `get_value` over empty holdings is the cash for every
price map, whatever symbols it contains or misses. -/
theorem run_initial_value :
    (∀ (sd : StockData) (weeks : ℕ) (cash : ℚ),
      (backtestRun sd weeks cash).isSome = true →
      (backtestRun sd weeks cash).map (fun r => r.initial_value)
        = some cash) ∧
    (∀ (cash : ℚ) (prices : List (Symb × ℚ)),
      Portfolio.get_value ⟨cash, []⟩ prices = cash) :=
  ⟨fun sd weeks cash hs => runBacktest_initial _ sd weeks cash hs,
   get_value_no_holdings⟩

/-- Closed instance of `run_initial_value` on a concrete 14-date run. -/
theorem run_initial_value_w :
    (backtestRun sdC7 0 1000).map (fun r => r.initial_value) = some 1000 :=
  run_initial_value.1 sdC7 0 1000 (by rfl)

/-! ## Max drawdown (spec §8, claim C8) -/

/-- Running peak of the total values up to index `i` (peak initialised at
`initial`). -/
def peakAt (initial : ℚ) (tvs : List ℚ) (i : ℕ) : ℚ :=
  (tvs.take (i + 1)).foldl max initial

/-- Relative decline from the running peak at index `i`. -/
def ddAt (initial : ℚ) (tvs : List ℚ) (i : ℕ) : ℚ :=
  (peakAt initial tvs i - tvs.getD i 0) / peakAt initial tvs i

theorem drawdown_snd_le (l : List ℚ) :
    ∀ md : ℚ × ℚ, md.2 ≤ (l.foldl drawdownStep md).2 := by
  induction l with
  | nil => exact fun md => le_refl _
  | cons a l' ih =>
    intro md
    rw [List.foldl_cons]
    refine le_trans ?_ (ih (drawdownStep md a))
    obtain ⟨m, d⟩ := md
    simp only [drawdownStep]
    exact le_max_left _ _

theorem ddAt_le_foldl (l : List ℚ) :
    ∀ (m d : ℚ) (i : ℕ), i < l.length →
      (((l.take (i + 1)).foldl max m) - l.getD i 0)
          / ((l.take (i + 1)).foldl max m)
        ≤ (l.foldl drawdownStep (m, d)).2 := by
  induction l with
  | nil =>
    intro m d i hi
    simp at hi
  | cons a l' ih =>
    intro m d i hi
    cases i with
    | zero =>
      simp only [List.take_succ_cons, List.take_zero, List.foldl_cons,
        List.foldl_nil, List.getD_cons_zero]
      calc (max m a - a) / max m a ≤ (drawdownStep (m, d) a).2 := by
            simp only [drawdownStep]
            exact le_max_right _ _
        _ ≤ _ := drawdown_snd_le l' _
    | succ i' =>
      simp only [List.take_succ_cons, List.foldl_cons, List.getD_cons_succ]
      exact ih (max m a) _ i' (by simpa using hi)

theorem foldl_dd_attained (l : List ℚ) :
    ∀ m d : ℚ, (l.foldl drawdownStep (m, d)).2 = d ∨
      ∃ i, i < l.length ∧ (l.foldl drawdownStep (m, d)).2
        = (((l.take (i + 1)).foldl max m) - l.getD i 0)
            / ((l.take (i + 1)).foldl max m) := by
  induction l with
  | nil => exact fun m d => Or.inl rfl
  | cons a l' ih =>
    intro m d
    rw [List.foldl_cons]
    have hstep : drawdownStep (m, d) a
        = (max m a, max d ((max m a - a) / (max m a))) := rfl
    rw [hstep]
    rcases ih (max m a) (max d ((max m a - a) / max m a)) with h1 | ⟨i, hi, h2⟩
    · rw [h1]
      rcases max_cases d ((max m a - a) / max m a) with ⟨he, _⟩ | ⟨he, _⟩
      · exact Or.inl he
      · refine Or.inr ⟨0, by simp, ?_⟩
        rw [he]
        simp only [List.take_succ_cons, List.take_zero, List.foldl_cons,
          List.foldl_nil, List.getD_cons_zero]
    · refine Or.inr ⟨i + 1, by simpa using hi, ?_⟩
      rw [h2]
      simp only [List.take_succ_cons, List.foldl_cons, List.getD_cons_succ]

theorem foldl_dd_zero (l : List ℚ) :
    ∀ m : ℚ, List.Chain' (· ≤ ·) (m :: l) →
      (l.foldl drawdownStep (m, 0)).2 = 0 := by
  induction l with
  | nil => exact fun m _ => rfl
  | cons a l' ih =>
    intro m hchain
    obtain ⟨hma, hch⟩ := List.chain'_cons.mp hchain
    rw [List.foldl_cons]
    have hstep : drawdownStep (m, 0) a = (a, 0) := by
      simp only [drawdownStep]
      rw [max_eq_right hma, sub_self, zero_div, max_self]
    rw [hstep]
    exact ih a hch

/-- C8: the reduced max drawdown is the largest relative decline from the
running peak (peak initialised at the first snapshot's total value): it
dominates the decline at every index and is attained at one (or is `0`);
it is monotonically non-decreasing under appending further snapshots; it
is `0` whenever the total values are non-decreasing; and
`_calculate_results` reports exactly this reduction of the snapshot
history. -/
theorem maxDrawdown_spec :
    (∀ (initial : ℚ) (tvs : List ℚ) (i : ℕ), i < tvs.length →
      ddAt initial tvs i ≤ maxDrawdown initial tvs) ∧
    (∀ (initial : ℚ) (tvs : List ℚ),
      maxDrawdown initial tvs = 0 ∨
      ∃ i, i < tvs.length ∧ maxDrawdown initial tvs = ddAt initial tvs i) ∧
    (∀ (initial : ℚ) (tvs more : List ℚ),
      maxDrawdown initial tvs ≤ maxDrawdown initial (tvs ++ more)) ∧
    (∀ (tv0 : ℚ) (rest : List ℚ), List.Chain' (· ≤ ·) (tv0 :: rest) →
      maxDrawdown tv0 (tv0 :: rest) = 0) ∧
    (∀ (P : Portfolio) (hist : List Snapshot) (log : List LogEntry)
        (r : Results),
      calculate_results P hist log = some r →
      ∃ h0, hist.head? = some h0 ∧
        r.max_drawdown
          = maxDrawdown h0.total_value
              (hist.map (fun st => st.total_value))) := by
  refine ⟨?_, ?_, ?_, ?_, ?_⟩
  · intro initial tvs i hi
    exact ddAt_le_foldl tvs initial 0 i hi
  · intro initial tvs
    exact foldl_dd_attained tvs initial 0
  · intro initial tvs more
    unfold maxDrawdown
    rw [List.foldl_append]
    exact drawdown_snd_le more _
  · intro tv0 rest hchain
    unfold maxDrawdown
    rw [List.foldl_cons]
    have hstep : drawdownStep (tv0, 0) tv0 = (tv0, 0) := by
      simp only [drawdownStep]
      rw [max_self, sub_self, zero_div, max_self]
    rw [hstep]
    exact foldl_dd_zero rest tv0 hchain
  · intro P hist log r hr
    cases hist with
    | nil => simp [calculate_results] at hr
    | cons h0 rest =>
      simp only [calculate_results, Option.some.injEq] at hr
      subst hr
      exact ⟨h0, rfl, rfl⟩

/-- Closed instance of `maxDrawdown_spec` on a non-decreasing history. -/
theorem maxDrawdown_spec_w : maxDrawdown 1 (1 :: [2]) = 0 :=
  maxDrawdown_spec.2.2.2.1 1 [2]
    (List.chain'_cons.mpr ⟨by decide, List.chain'_singleton 2⟩)

/-- C10: the `1e-10` magnitude guard in `calculate_weekly_change`
protects only the earlier reference price — a series whose latest price is
`0` with positive reference yields weekly change `-1` and a BUY decision —
while `execute_trades` separately guards its share division (storing `0`
shares at a zero latest price), and the driver's `processTrade` divides
the trade amount by the zero latest price with no guard whatsoever and
executes and logs the buy (in exact arithmetic the junk quotient `5 / 0`;
in the floating-point source a non-finite share count), so the driver's
share computation needs a positivity precondition on window prices that
the engine's own guard does not provide; a zero reference price, by
contrast, is nulled out. -/
theorem zero_price_guard_asymmetry :
    calculate_weekly_change
        [some 1, some 1, some 1, some 1, some 1, some 1, some 1, some 0]
      = some (-1) ∧
    generate_signal defaultEngine
        [some 1, some 1, some 1, some 1, some 1, some 1, some 1, some 0]
      = (Signal.BUY, 5, some (-1)) ∧
    execute_trades defaultEngine
        [("A", [some 1, some 1, some 1, some 1, some 1, some 1, some 1,
          some 0])]
      = [("A", ⟨Signal.BUY, 5, 0, some 0, some (-1)⟩)] ∧
    processTrade 13 [("A", 0)] (⟨100, []⟩, [])
        ("A", ⟨Signal.BUY, 5, 0, some 0, some (-1)⟩)
      = (⟨100, [("A", 5 / 0)]⟩,
         [⟨13, "A", TAction.BUY, 5 / 0, 0, 5, some (-1)⟩]) ∧
    calculate_weekly_change [some 0, some 2] = none := by
  refine ⟨?_, ?_, ?_, ?_, ?_⟩ <;> decide
